import Mathlib

/-!
Verification of the incremental indexing pipeline of `src/max/vectorstore.py`
(`build_or_load_vectorstore`), shallowly embedded in Lean.

Modelling choices, in one place:

* A project scan is a list of `ScanFile` records.  Each record carries the
  outcome of the external probes on that file at scan time: whether
  `should_index` accepts it, what `file_hash` returns (`none` models the
  `IOError` that `file_hash` raises on an unreadable file), and what
  `TextLoader.load` returns (`none` models any of the exceptions the loop
  catches: `FileNotFoundError`, `PermissionError`, `UnicodeDecodeError`,
  `OSError`, or any other exception — all of them skip the file and differ
  only in what gets printed).  `path` is already the resolved absolute path
  (the `file_key` of the code).
* The two index directories (`.codeflow_index` legacy, `.charlie_index`
  current) are `Option IndexDir` fields of the environment; an `IndexDir`
  holds the state of `index_meta.json`, whether `chroma.sqlite3` exists, and
  the chunk records currently stored in the Chroma collection.
* `index_meta.json` is `MetaFile`: absent, corrupt (present but unparseable
  JSON), or valid with a parsed mapping.  The mapping itself is an insertion
  ordered association list, which is exactly the ordering a Python dict
  preserves; `dictInsert` and `dictUpdate` mirror `d[k] = v` and
  `old.update(new)`.
* `Chroma.from_documents(chunks, …, persist_directory=…)` adds the new chunk
  records to the persisted collection; a failure of the embedding service
  during that call is the `embedOk = false` case and raises out of the
  function.  Both arms of the final `if`/`else` of the code construct the
  same `Chroma(persist_directory=…)` handle and differ only in the message
  printed, so the model gives both the existing records.
* Errors that escape `build_or_load_vectorstore` carry the environment as it
  stands when the exception propagates, so that theorems can speak about the
  on-disk state after a failed pass.
-/

/-- Outcome of the external probes on one filesystem entry found by
`Path(project_path).rglob("*")`.  `path` is the resolved absolute path used
as `file_key`. -/
structure ScanFile where
  path : String
  eligible : Bool
  hashResult : Option Nat
  loadResult : Option String
deriving DecidableEq, Repr

/-- Modelled from the spec: `should_index` (the File Selector helper in the
missing `utils` module) is a pure predicate deciding whether a filesystem
entry is eligible for indexing (extension, size and path filters, excluding
the index storage directory itself).  The model records its verdict in the
scan record. -/
def should_index (f : ScanFile) : Bool :=
  f.eligible

/-- Modelled from the spec: `file_hash` (the Content Fingerprinter helper in
the missing `utils` module) reads the full byte content of the file and
returns a deterministic digest; it fails with `IOError` when the file is
unreadable at call time.  `none` models the raised `IOError`. -/
def file_hash (f : ScanFile) : Option Nat :=
  f.hashResult

/-- Modelled from the spec: the external text loading collaborator
(`TextLoader(...).load()`) returns the decoded text of the file or fails
with a not-found, permission, decode or OS error for the caller to catch.
`none` models any raised exception. -/
def loadText (f : ScanFile) : Option String :=
  f.loadResult

/-- The persisted `path → fingerprint` mapping of `index_meta.json`, as an
insertion ordered association list (the ordering a Python dict keeps). -/
abbrev Meta := List (String × Nat)

/-- `key in d` followed by `d[key]`: the first binding of `key`, if any. -/
def lookupMeta : Meta → String → Option Nat
  | [], _ => none
  | (k, v) :: m, key => if k = key then some v else lookupMeta m key

/-- Python dict assignment `d[k] = v`: replace the value of an existing key
in place, otherwise append the new binding at the end. -/
def dictInsert : Meta → String → Nat → Meta
  | [], k, v => [(k, v)]
  | (k0, v0) :: m, k, v =>
    if k0 = k then (k0, v) :: m else (k0, v0) :: dictInsert m k v

/-- Python `old.update(new)`: fold every binding of `new` into `old`. -/
def dictUpdate (old new : Meta) : Meta :=
  new.foldl (fun acc kv => dictInsert acc kv.1 kv.2) old

/-- State of `index_meta.json` on disk. -/
inductive MetaFile where
  | absent : MetaFile
  | corrupt : MetaFile
  | valid : Meta → MetaFile
deriving DecidableEq, Repr

/-- Lines 30-35 of `vectorstore.py`: start from an empty mapping, read and
parse the file when it exists, and on a parse or read error keep the empty
mapping and print a warning.  Returns the mapping and whether the corruption
warning was printed. -/
def loadMeta : MetaFile → Meta × Bool
  | .absent => ([], false)
  | .corrupt => ([], true)
  | .valid m => (m, false)

/-- One chunk record stored in the vector index: its text and the source
path provenance carried in the document metadata. -/
structure Chunk where
  text : String
  source : String
deriving DecidableEq, Repr

/-- Modelled from the spec: the Chunker (the external
`RecursiveCharacterTextSplitter(chunk_size=800, chunk_overlap=100)`) splits
a document text into bounded-size segments with a fixed overlap between
consecutive segments.  The exact recursive boundary strategy is opaque; the
model takes windows of 800 characters advancing by 700. -/
def splitTextGo : Nat → String → List String
  | 0, _ => []
  | n + 1, t =>
    if t.length ≤ 800 then [t]
    else t.take 800 :: splitTextGo n (t.drop 700)

/-- Split one document text into overlapping bounded segments. -/
def splitText (t : String) : List String :=
  splitTextGo (t.length + 1) t

/-- Chunks of one pending document `(file_key, text)`, each tagged with its
source path. -/
def docChunks (d : String × String) : List Chunk :=
  (splitText d.2).map (fun s => { text := s, source := d.1 })

/-- `splitter.split_documents(new_docs)`: chunk every pending document,
keeping document order. -/
def splitDocuments : List (String × String) → List Chunk
  | [] => []
  | d :: ds => docChunks d ++ splitDocuments ds

/-- Insert a scored chunk into a list sorted most-similar first. -/
def insertRanked (p : Nat × Chunk) : List (Nat × Chunk) → List (Nat × Chunk)
  | [] => [p]
  | q :: qs => if q.1 ≤ p.1 then p :: q :: qs else q :: insertRanked p qs

/-- Sort scored chunks most-similar first. -/
def rankAll : List (Nat × Chunk) → List (Nat × Chunk)
  | [] => []
  | p :: ps => insertRanked p (rankAll ps)

/-- Modelled from the spec: the external vector index service exposes
`similarity_search(query_text, k)` returning the top `k` stored chunks by
similarity, most-similar first.  The similarity scoring itself is opaque and
is taken as a parameter. -/
def similaritySearch (score : String → String → Nat) (records : List Chunk)
    (query : String) (k : Nat) : List Chunk :=
  ((rankAll (records.map (fun c => (score query c.text, c)))).map (·.2)).take k

/-- On-disk state of one index directory (`.charlie_index` or the legacy
`.codeflow_index`): the metadata file, whether `chroma.sqlite3` exists, and
the chunk records held by the persisted Chroma collection. -/
structure IndexDir where
  metaFile : MetaFile
  chromaExists : Bool
  records : List Chunk
deriving DecidableEq, Repr

/-- A freshly created index directory: `os.makedirs` makes the directory but
no metadata file and no Chroma database exist yet. -/
def emptyIndexDir : IndexDir :=
  { metaFile := .absent, chromaExists := false, records := [] }

/-- The world as `build_or_load_vectorstore(project_path)` sees it: the two
candidate index directories, the scan outcome for the project tree in
`rglob` order, and whether the embedding / vector index service is healthy
for this pass. -/
structure Env where
  codeflow : Option IndexDir
  charlie : Option IndexDir
  files : List ScanFile
  embedOk : Bool
deriving DecidableEq, Repr

/-- Lines 16-20: when the legacy `.codeflow_index` exists and
`.charlie_index` does not, `shutil.move` the whole directory to the new
name. -/
def migrate (e : Env) : Env :=
  if e.codeflow.isSome ∧ e.charlie.isNone then
    { e with codeflow := none, charlie := e.codeflow }
  else e

/-- Line 24: `os.makedirs(persist_dir, exist_ok=True)`. -/
def ensureDir (e : Env) : Env :=
  if e.charlie.isNone then { e with charlie := some emptyIndexDir } else e

/-- The metadata file currently inside `.charlie_index`. -/
def metaFileOf (e : Env) : MetaFile :=
  (e.charlie.getD emptyIndexDir).metaFile

/-- The two accumulators of the scan loop: `new_docs` as
`(file_key, text)` pairs, and `new_meta`. -/
structure Pending where
  newDocs : List (String × String)
  newMeta : Meta
deriving DecidableEq, Repr

/-- Lines 41-68, one iteration of the scan loop for one file.  Note that
`current_hash = file_hash(file_path)` sits before the `try` block, so an
`IOError` raised there is not caught and aborts the whole pass: the error
case carries the offending path. -/
def scanStep (oldMeta : Meta) (st : Pending) (f : ScanFile) :
    Except String Pending :=
  if ¬ should_index f then .ok st
  else
    match file_hash f with
    | none => .error f.path
    | some h =>
      if lookupMeta oldMeta f.path = some h then .ok st
      else
        match loadText f with
        | some text =>
          .ok { newDocs := st.newDocs ++ [(f.path, text)],
                newMeta := dictInsert st.newMeta f.path h }
        | none => .ok st

/-- The whole scan loop over the `rglob` order. -/
def scanGo (oldMeta : Meta) (st : Pending) : List ScanFile →
    Except String Pending
  | [] => .ok st
  | f :: fs =>
    match scanStep oldMeta st f with
    | .error p => .error p
    | .ok st2 => scanGo oldMeta st2 fs

/-- An exception escaping `build_or_load_vectorstore`, carrying the on-disk
environment at the moment it propagates: the uncaught `IOError` of
`file_hash`, or a failure of the embedding / vector index service during
`Chroma.from_documents`. -/
inductive Err where
  | hashErr : String → Env → Err
  | embedFail : Env → Err
deriving DecidableEq, Repr

/-- A successful pass: the final on-disk environment, the documents
(re)embedded during the pass, the records backing the returned handle, and
whether the corrupt-metadata warning was printed. -/
structure Result where
  env : Env
  embedded : List (String × String)
  store : List Chunk
  warned : Bool
deriving DecidableEq, Repr

/-- `build_or_load_vectorstore(project_path)`, lines 10-98: migrate the
legacy directory, create the index directory, load the old metadata, scan
the tree accumulating changed documents, embed them (or load / create the
index when there are none), then merge and write the metadata. -/
def build_or_load_vectorstore (e : Env) : Except Err Result :=
  let e1 := ensureDir (migrate e)
  let dir := e1.charlie.getD emptyIndexDir
  let lm := loadMeta dir.metaFile
  match scanGo lm.1 { newDocs := [], newMeta := [] } e1.files with
  | .error p => .error (.hashErr p e1)
  | .ok st =>
    let storeRes : Except Err (List Chunk) :=
      if st.newDocs = [] then .ok dir.records
      else if e1.embedOk then .ok (dir.records ++ splitDocuments st.newDocs)
      else .error (.embedFail e1)
    match storeRes with
    | .error err => .error err
    | .ok records =>
      let finalMeta := dictUpdate lm.1 st.newMeta
      let dir2 : IndexDir :=
        { metaFile := .valid finalMeta, chromaExists := true,
          records := records }
      .ok { env := { e1 with charlie := some dir2 },
            embedded := st.newDocs, store := records, warned := lm.2 }

instance instDecEqExcept {ε α : Type} [DecidableEq ε] [DecidableEq α] :
    DecidableEq (Except ε α) := fun a b =>
  match a, b with
  | .error x, .error y =>
    if h : x = y then .isTrue (by rw [h])
    else .isFalse (by intro hc; cases hc; exact h rfl)
  | .ok x, .ok y =>
    if h : x = y then .isTrue (by rw [h])
    else .isFalse (by intro hc; cases hc; exact h rfl)
  | .error _, .ok _ => .isFalse (by intro hc; cases hc)
  | .ok _, .error _ => .isFalse (by intro hc; cases hc)

/-- The Change Planner set `changed` (the files the scan loop does not skip):
eligible files that are new or whose freshly computed fingerprint differs
from the stored one. -/
def changedSet (old : Meta) (files : List ScanFile) : List ScanFile :=
  files.filter
    (fun f => f.eligible && ! decide (lookupMeta old f.path = f.hashResult))

/-- The Change Planner set `unchanged` (the files the scan loop skips):
eligible files whose stored fingerprint equals the freshly computed one. -/
def unchangedSet (old : Meta) (files : List ScanFile) : List ScanFile :=
  files.filter
    (fun f => f.eligible && decide (lookupMeta old f.path = f.hashResult))

/-- What one file contributes to `new_docs`: eligible, changed, and loaded
without an exception. -/
def contributesDoc (old : Meta) (f : ScanFile) : Option (String × String) :=
  if f.eligible = true ∧ ¬ lookupMeta old f.path = f.hashResult then
    f.loadResult.map (fun t => (f.path, t))
  else none

/-- What one file contributes to `new_meta`: its fresh fingerprint, recorded
exactly when the text load succeeded. -/
def contributesMeta (old : Meta) (f : ScanFile) : Option (String × Nat) :=
  if f.eligible = true ∧ ¬ lookupMeta old f.path = f.hashResult ∧
      f.loadResult.isSome = true then
    f.hashResult.map (fun h => (f.path, h))
  else none

/-- Closed form of the `new_docs` accumulator. -/
def docsOfList (old : Meta) (files : List ScanFile) : List (String × String) :=
  files.filterMap (contributesDoc old)

/-- Closed form of the `new_meta` accumulator. -/
def metaOfList (old : Meta) (files : List ScanFile) : Meta :=
  files.filterMap (contributesMeta old)

/-- The environment after a successful pass: `.charlie_index` now holds the
merged metadata, an existing Chroma database, and the given records. -/
def withIndex (e : Env) (m : Meta) (recs : List Chunk) : Env :=
  { e with charlie := some (IndexDir.mk (.valid m) true recs) }

/-- Concrete input for C7: a previously indexed file that has disappeared
from the scan, with nothing else in the project. -/
def c7Env : Env :=
  { codeflow := none,
    charlie := some (IndexDir.mk (.valid [("/gone.py", 5)]) true []),
    files := [], embedOk := true }

/-- Concrete input for C10: one changed file whose text load raises. -/
def c10Env : Env :=
  { codeflow := none,
    charlie := some (IndexDir.mk (.valid [("/p/b.py", 3)]) true []),
    files := [{ path := "/p/b.py", eligible := true, hashResult := some 9,
                loadResult := none }],
    embedOk := true }

/-- Result of the pass on `c7Env`: nothing embedded, metadata unchanged. -/
def c7Result : Result :=
  { env := c7Env, embedded := [], store := [], warned := false }

/-- Result of the pass on `c10Env`: nothing embedded, metadata unchanged. -/
def c10Result : Result :=
  { env := c10Env, embedded := [], store := [], warned := false }

/-- Concrete scan records for C2: one modified file and one untouched
file. -/
def c2FileA : ScanFile :=
  { path := "/p/a.py", eligible := true, hashResult := some 9,
    loadResult := some "new" }

/-- The untouched companion file of the C2 scenario. -/
def c2FileC : ScanFile :=
  { path := "/p/c.py", eligible := true, hashResult := some 2,
    loadResult := some "same" }

/-- Index directory for C2: both files were indexed before, `/p/a.py` with
fingerprint 1 (now 9) and `/p/c.py` with fingerprint 2 (unchanged). -/
def c2Dir : IndexDir :=
  IndexDir.mk (.valid [("/p/a.py", 1), ("/p/c.py", 2)]) true []

/-- Concrete input for C2. -/
def c2Env : Env :=
  { codeflow := none, charlie := some c2Dir, files := [c2FileA, c2FileC],
    embedOk := true }

/-- Legacy index directory for C8, carrying one stored chunk record and the
metadata of the already indexed file. -/
def c8Legacy : IndexDir :=
  IndexDir.mk (.valid [("/p/a.py", 7)]) true
    [{ text := "x", source := "/p/a.py" }]

/-- Concrete input for C8: only the legacy `.codeflow_index` directory
exists. -/
def c8Env : Env :=
  { codeflow := some c8Legacy, charlie := none,
    files := [{ path := "/p/a.py", eligible := true, hashResult := some 7,
                loadResult := some "x" }],
    embedOk := true }

/-- Concrete input for C1: a fresh project with one readable file. -/
def c1Env : Env :=
  { codeflow := none, charlie := none,
    files := [{ path := "/p/a.py", eligible := true, hashResult := some 7,
                loadResult := some "print" }],
    embedOk := true }

/-- Result of the first pass on `c1Env`: the file is embedded and its
fingerprint is persisted. -/
def c1Run1 : Result :=
  { env := { codeflow := none,
             charlie := some (IndexDir.mk (.valid [("/p/a.py", 7)]) true
               [{ text := "print", source := "/p/a.py" }]),
             files := [{ path := "/p/a.py", eligible := true,
                         hashResult := some 7, loadResult := some "print" }],
             embedOk := true },
    embedded := [("/p/a.py", "print")],
    store := [{ text := "print", source := "/p/a.py" }],
    warned := false }

/-- Concrete input for C3: nine readable files and one file that is
unreadable at `file_hash` time (its fingerprint computation raises
`IOError`). -/
def c3Env : Env :=
  { codeflow := none, charlie := none,
    files :=
      [{ path := "/p/f0.py", eligible := true, hashResult := some 10,
         loadResult := some "t0" },
       { path := "/p/f1.py", eligible := true, hashResult := some 11,
         loadResult := some "t1" },
       { path := "/p/f2.py", eligible := true, hashResult := some 12,
         loadResult := some "t2" },
       { path := "/p/f3.py", eligible := true, hashResult := some 13,
         loadResult := some "t3" },
       { path := "/p/f4.py", eligible := true, hashResult := some 14,
         loadResult := some "t4" },
       { path := "/p/f5.py", eligible := true, hashResult := some 15,
         loadResult := some "t5" },
       { path := "/p/f6.py", eligible := true, hashResult := some 16,
         loadResult := some "t6" },
       { path := "/p/f7.py", eligible := true, hashResult := some 17,
         loadResult := some "t7" },
       { path := "/p/f8.py", eligible := true, hashResult := some 18,
         loadResult := some "t8" },
       { path := "/p/f9.py", eligible := true, hashResult := none,
         loadResult := none }],
    embedOk := true }

/-- Content of `index_meta.json` during the C5 crash analysis, together
with the content of a save temp file, if either exists. -/
structure SaveState where
  metaContent : Option String
  tmpContent : Option String
deriving DecidableEq, Repr

/-- The filesystem writes a metadata save can be built from: a direct
in-place write of `index_meta.json`, a write of a temporary file, and an
atomic rename of the temporary file over `index_meta.json`. -/
inductive SaveOp where
  | directWrite : String → SaveOp
  | tempWrite : String → SaveOp
  | renameTmp : SaveOp
deriving DecidableEq, Repr

/-- Effect of one completed save operation. -/
def applySaveOp (st : SaveState) : SaveOp → SaveState
  | .directWrite c => { st with metaContent := some c }
  | .tempWrite c => { st with tmpContent := some c }
  | .renameTmp => { metaContent := st.tmpContent, tmpContent := none }

/-- States observable if the process crashes during one operation: an
interrupted write leaves an arbitrary prefix of the intended content in the
target file, while a rename is atomic (before or after, nothing between). -/
def crashStates (st : SaveState) : SaveOp → List SaveState
  | .directWrite c =>
    (List.range (c.length + 1)).map
      (fun i => { st with metaContent := some (String.mk (c.data.take i)) })
  | .tempWrite c =>
    (List.range (c.length + 1)).map
      (fun i => { st with tmpContent := some (String.mk (c.data.take i)) })
  | .renameTmp => [st, applySaveOp st .renameTmp]

/-- All states observable on disk if the process crashes at any point
while executing a sequence of save operations (including before the first
and after the last). -/
def reachableCrash (st : SaveState) : List SaveOp → List SaveState
  | [] => [st]
  | op :: ops => st :: crashStates st op ++ reachableCrash (applySaveOp st op) ops

/-- Line 97 of `vectorstore.py`:
`Path(meta_path).write_text(json.dumps(old_meta, indent=2))` — the save is
one direct in-place write of the serialized mapping. -/
def saveMetaOps (s : String) : List SaveOp :=
  [SaveOp.directWrite s]

/-- Modelled from the spec: the §4.3 `save` contract for a strict
implementation — write the serialized mapping to a temporary file, then
rename the temporary file over `index_meta.json`. -/
def atomicSaveOps (s : String) : List SaveOp :=
  [SaveOp.tempWrite s, SaveOp.renameTmp]

theorem lookupMeta_eq_none_of_not_mem (m : Meta) (key : String)
    (h : key ∉ m.map Prod.fst) : lookupMeta m key = none := by
  induction m with
  | nil => rfl
  | cons kv m ih =>
    obtain ⟨k0, v0⟩ := kv
    simp only [List.map_cons, List.mem_cons, not_or] at h
    simp [lookupMeta, Ne.symm h.1, ih h.2]

theorem lookupMeta_dictInsert (m : Meta) (k : String) (v : Nat) (key : String) :
    lookupMeta (dictInsert m k v) key =
      if key = k then some v else lookupMeta m key := by
  induction m with
  | nil =>
    by_cases h : key = k
    · subst h; simp [dictInsert, lookupMeta]
    · simp [dictInsert, lookupMeta, h, Ne.symm h]
  | cons kv m ih =>
    obtain ⟨k0, v0⟩ := kv
    by_cases h0 : k0 = k
    · subst h0
      by_cases h : k0 = key
      · subst h; simp [dictInsert, lookupMeta]
      · simp [dictInsert, lookupMeta, h, Ne.symm h]
    · by_cases h : k0 = key
      · subst h
        have hk : ¬ k0 = k := h0
        simp [dictInsert, lookupMeta, h0, Ne.symm hk]
      · simp [dictInsert, lookupMeta, h0, h, ih]

theorem dictInsert_of_lookup_none (m : Meta) (k : String) (v : Nat)
    (h : lookupMeta m k = none) : dictInsert m k v = m ++ [(k, v)] := by
  induction m with
  | nil => simp [dictInsert]
  | cons kv m ih =>
    obtain ⟨k0, v0⟩ := kv
    by_cases h0 : k0 = k
    · simp [lookupMeta, h0] at h
    · simp [lookupMeta, h0] at h
      simp [dictInsert, h0, ih h]

theorem lookupMeta_append_left (m1 m2 : Meta) (key : String) (v : Nat)
    (h : lookupMeta m1 key = some v) :
    lookupMeta (m1 ++ m2) key = some v := by
  induction m1 with
  | nil => simp [lookupMeta] at h
  | cons kv m ih =>
    obtain ⟨k0, v0⟩ := kv
    by_cases h0 : k0 = key
    · simp [lookupMeta, h0] at h ⊢
      exact h
    · simp [lookupMeta, h0] at h ⊢
      exact ih h

theorem lookupMeta_append_right (m1 m2 : Meta) (key : String)
    (h : lookupMeta m1 key = none) :
    lookupMeta (m1 ++ m2) key = lookupMeta m2 key := by
  induction m1 with
  | nil => simp [lookupMeta]
  | cons kv m ih =>
    obtain ⟨k0, v0⟩ := kv
    by_cases h0 : k0 = key
    · simp [lookupMeta, h0] at h
    · simp [lookupMeta, h0] at h ⊢
      exact ih h

theorem lookupMeta_dictUpdate_none (old new : Meta) (key : String)
    (h : lookupMeta new key = none) :
    lookupMeta (dictUpdate old new) key = lookupMeta old key := by
  induction new generalizing old with
  | nil => simp [dictUpdate]
  | cons kv rest ih =>
    obtain ⟨k0, v0⟩ := kv
    by_cases h0 : k0 = key
    · simp [lookupMeta, h0] at h
    · simp only [lookupMeta, if_neg h0] at h
      have step : dictUpdate old ((k0, v0) :: rest) =
          dictUpdate (dictInsert old k0 v0) rest := rfl
      rw [step, ih (dictInsert old k0 v0) h, lookupMeta_dictInsert,
        if_neg (Ne.symm h0)]

theorem lookupMeta_dictUpdate_some (old new : Meta) (key : String) (v : Nat)
    (hnd : (new.map Prod.fst).Nodup) (h : lookupMeta new key = some v) :
    lookupMeta (dictUpdate old new) key = some v := by
  induction new generalizing old with
  | nil => simp [lookupMeta] at h
  | cons kv rest ih =>
    obtain ⟨k0, v0⟩ := kv
    simp only [List.map_cons, List.nodup_cons] at hnd
    have step : dictUpdate old ((k0, v0) :: rest) =
        dictUpdate (dictInsert old k0 v0) rest := rfl
    by_cases h0 : k0 = key
    · subst h0
      simp [lookupMeta] at h
      subst h
      have hrest : lookupMeta rest k0 = none :=
        lookupMeta_eq_none_of_not_mem rest k0 hnd.1
      rw [step, lookupMeta_dictUpdate_none _ _ _ hrest, lookupMeta_dictInsert]
      simp
    · simp only [lookupMeta, if_neg h0] at h
      rw [step, ih (dictInsert old k0 v0) hnd.2 h]

theorem scanGo_cons_of_ok (old : Meta) (st st2 : Pending) (f : ScanFile)
    (fs : List ScanFile) (h : scanStep old st f = .ok st2) :
    scanGo old st (f :: fs) = scanGo old st2 fs := by
  simp [scanGo, h]

theorem scanGo_cons_of_err (old : Meta) (st : Pending) (f : ScanFile)
    (fs : List ScanFile) (p : String) (h : scanStep old st f = .error p) :
    scanGo old st (f :: fs) = .error p := by
  simp [scanGo, h]

theorem scanGo_ok (old : Meta) (files : List ScanFile) :
    ∀ st : Pending,
      (∀ f ∈ files, f.eligible = true → (file_hash f).isSome = true) →
      (files.map (fun f => f.path)).Nodup →
      (∀ f ∈ files, lookupMeta st.newMeta f.path = none) →
      scanGo old st files =
        .ok { newDocs := st.newDocs ++ docsOfList old files,
              newMeta := st.newMeta ++ metaOfList old files } := by
  induction files with
  | nil =>
    intro st _ _ _
    simp [scanGo, docsOfList, metaOfList]
  | cons f fs ih =>
    intro st hhash hnodup hinv
    simp only [List.map_cons, List.nodup_cons] at hnodup
    have hdocs : docsOfList old (f :: fs) =
        (contributesDoc old f).toList ++ docsOfList old fs := by
      cases hc : contributesDoc old f <;>
        simp [docsOfList, List.filterMap_cons, hc]
    have hmeta : metaOfList old (f :: fs) =
        (contributesMeta old f).toList ++ metaOfList old fs := by
      cases hc : contributesMeta old f <;>
        simp [metaOfList, List.filterMap_cons, hc]
    by_cases he : f.eligible = true
    · obtain ⟨h, hh⟩ := Option.isSome_iff_exists.mp (hhash f (by simp) he)
      have hh2 : f.hashResult = some h := hh
      by_cases hskip : lookupMeta old f.path = some h
      · have hstep : scanStep old st f = .ok st := by
          simp [scanStep, should_index, he, file_hash, hh2, hskip]
        have hcd : contributesDoc old f = none := by
          simp [contributesDoc, hh2, hskip]
        have hcm : contributesMeta old f = none := by
          simp [contributesMeta, hh2, hskip]
        rw [scanGo_cons_of_ok old st st f fs hstep,
          ih st (fun g hg => hhash g (by simp [hg])) hnodup.2
            (fun g hg => hinv g (by simp [hg]))]
        simp [hdocs, hmeta, hcd, hcm]
      · cases hload : f.loadResult with
        | none =>
          have hstep : scanStep old st f = .ok st := by
            simp [scanStep, should_index, he, file_hash, hh2, hskip,
              loadText, hload]
          have hcd : contributesDoc old f = none := by
            simp [contributesDoc, hload]
          have hcm : contributesMeta old f = none := by
            simp [contributesMeta, hload]
          rw [scanGo_cons_of_ok old st st f fs hstep,
            ih st (fun g hg => hhash g (by simp [hg])) hnodup.2
              (fun g hg => hinv g (by simp [hg]))]
          simp [hdocs, hmeta, hcd, hcm]
        | some t =>
          have hins : dictInsert st.newMeta f.path h =
              st.newMeta ++ [(f.path, h)] :=
            dictInsert_of_lookup_none _ _ _ (hinv f (by simp))
          have hstep : scanStep old st f =
              .ok { newDocs := st.newDocs ++ [(f.path, t)],
                    newMeta := st.newMeta ++ [(f.path, h)] } := by
            simp [scanStep, should_index, he, file_hash, hh2, hskip,
              loadText, hload, hins]
          have hcd : contributesDoc old f = some (f.path, t) := by
            simp [contributesDoc, he, hh2, hskip, hload]
          have hcm : contributesMeta old f = some (f.path, h) := by
            simp [contributesMeta, he, hh2, hskip, hload]
          rw [scanGo_cons_of_ok old st
              { newDocs := st.newDocs ++ [(f.path, t)],
                newMeta := st.newMeta ++ [(f.path, h)] } f fs hstep,
            ih { newDocs := st.newDocs ++ [(f.path, t)],
                 newMeta := st.newMeta ++ [(f.path, h)] }
              (fun g hg => hhash g (by simp [hg])) hnodup.2 ?_]
          · simp [hdocs, hmeta, hcd, hcm]
          · intro g hg
            rw [lookupMeta_append_right _ _ _ (hinv g (by simp [hg]))]
            have hne : ¬ f.path = g.path := by
              intro hc
              exact hnodup.1 (hc ▸ List.mem_map_of_mem (fun x => x.path) hg)
            simp [lookupMeta, hne]
    · have hstep : scanStep old st f = .ok st := by
        simp [scanStep, should_index, he]
      have hcd : contributesDoc old f = none := by
        simp [contributesDoc, he]
      have hcm : contributesMeta old f = none := by
        simp [contributesMeta, he]
      rw [scanGo_cons_of_ok old st st f fs hstep,
        ih st (fun g hg => hhash g (by simp [hg])) hnodup.2
          (fun g hg => hinv g (by simp [hg]))]
      simp [hdocs, hmeta, hcd, hcm]

theorem contributesMeta_path (old : Meta) (f : ScanFile) (kv : String × Nat)
    (h : contributesMeta old f = some kv) : kv.1 = f.path := by
  unfold contributesMeta at h
  split at h
  · cases hh : f.hashResult with
    | none => rw [hh] at h; simp at h
    | some w => rw [hh] at h; simp at h; rw [← h]
  · simp at h

theorem contributesDoc_isSome_of_meta (old : Meta) (f : ScanFile)
    (kv : String × Nat) (h : contributesMeta old f = some kv) :
    (contributesDoc old f).isSome = true := by
  unfold contributesMeta at h
  unfold contributesDoc
  split at h
  · rename_i hcond
    rw [if_pos ⟨hcond.1, hcond.2.1⟩]
    obtain ⟨t, ht⟩ := Option.isSome_iff_exists.mp hcond.2.2
    simp [ht]
  · simp at h

theorem metaOfList_keys_sublist (old : Meta) (files : List ScanFile) :
    ((metaOfList old files).map Prod.fst).Sublist
      (files.map (fun f => f.path)) := by
  induction files with
  | nil => simp [metaOfList]
  | cons f fs ih =>
    cases hc : contributesMeta old f with
    | none =>
      simp only [metaOfList, List.filterMap_cons, hc, List.map_cons]
      exact ih.cons f.path
    | some kv =>
      simp only [metaOfList, List.filterMap_cons, hc, List.map_cons]
      rw [contributesMeta_path old f kv hc]
      exact ih.cons₂ f.path

theorem metaOfList_keys_nodup (old : Meta) (files : List ScanFile)
    (hnodup : (files.map (fun f => f.path)).Nodup) :
    ((metaOfList old files).map Prod.fst).Nodup :=
  (metaOfList_keys_sublist old files).nodup hnodup

theorem lookupMeta_metaOfList_of_not_mem (old : Meta) (files : List ScanFile)
    (p : String) (h : p ∉ files.map (fun f => f.path)) :
    lookupMeta (metaOfList old files) p = none := by
  refine lookupMeta_eq_none_of_not_mem _ _ (fun hc => h ?_)
  exact (metaOfList_keys_sublist old files).subset hc

theorem lookupMeta_metaOfList_of_none (old : Meta) (files : List ScanFile)
    (f : ScanFile) (hmem : f ∈ files)
    (hnodup : (files.map (fun f => f.path)).Nodup)
    (hc : contributesMeta old f = none) :
    lookupMeta (metaOfList old files) f.path = none := by
  induction files with
  | nil => simp at hmem
  | cons g fs ih =>
    simp only [List.map_cons, List.nodup_cons] at hnodup
    rcases List.mem_cons.mp hmem with hfg | hfs
    · subst hfg
      simp only [metaOfList, List.filterMap_cons, hc]
      exact lookupMeta_metaOfList_of_not_mem old fs f.path hnodup.1
    · have hne : ¬ g.path = f.path := by
        intro hcc
        exact hnodup.1 (hcc ▸ List.mem_map_of_mem (fun x => x.path) hfs)
      cases hg : contributesMeta old g with
      | none =>
        simp only [metaOfList, List.filterMap_cons, hg]
        exact ih hfs hnodup.2
      | some kv =>
        simp only [metaOfList, List.filterMap_cons, hg]
        have hkey : kv.1 = g.path := contributesMeta_path old g kv hg
        show lookupMeta (kv :: metaOfList old fs) f.path = none
        have hthis : lookupMeta (kv :: metaOfList old fs) f.path =
            lookupMeta (metaOfList old fs) f.path := by
          obtain ⟨k1, v1⟩ := kv
          simp only at hkey
          simp [lookupMeta, hkey, hne]
        rw [hthis]
        exact ih hfs hnodup.2

theorem lookupMeta_metaOfList_of_some (old : Meta) (files : List ScanFile)
    (f : ScanFile) (v : Nat) (hmem : f ∈ files)
    (hnodup : (files.map (fun f => f.path)).Nodup)
    (hc : contributesMeta old f = some (f.path, v)) :
    lookupMeta (metaOfList old files) f.path = some v := by
  induction files with
  | nil => simp at hmem
  | cons g fs ih =>
    simp only [List.map_cons, List.nodup_cons] at hnodup
    rcases List.mem_cons.mp hmem with hfg | hfs
    · subst hfg
      simp only [metaOfList, List.filterMap_cons, hc]
      simp [lookupMeta]
    · have hne : ¬ g.path = f.path := by
        intro hcc
        exact hnodup.1 (hcc ▸ List.mem_map_of_mem (fun x => x.path) hfs)
      cases hg : contributesMeta old g with
      | none =>
        simp only [metaOfList, List.filterMap_cons, hg]
        exact ih hfs hnodup.2
      | some kv =>
        simp only [metaOfList, List.filterMap_cons, hg]
        have hkey : kv.1 = g.path := contributesMeta_path old g kv hg
        show lookupMeta (kv :: metaOfList old fs) f.path = some v
        have hstep : lookupMeta (kv :: metaOfList old fs) f.path =
            lookupMeta (metaOfList old fs) f.path := by
          obtain ⟨k1, v1⟩ := kv
          simp only at hkey
          simp [lookupMeta, hkey, hne]
        rw [hstep]
        exact ih hfs hnodup.2

theorem migrate_of_charlie_some (e : Env) (d : IndexDir)
    (h : e.charlie = some d) : migrate e = e := by
  simp [migrate, h]

theorem ensureDir_of_charlie_some (e : Env) (d : IndexDir)
    (h : e.charlie = some d) : ensureDir e = e := by
  simp [ensureDir, h]

theorem build_no_changes (e : Env) (dir : IndexDir)
    (hch : e.charlie = some dir)
    (hhash : ∀ f ∈ e.files, f.eligible = true → (file_hash f).isSome = true)
    (hnodup : (e.files.map (fun f => f.path)).Nodup)
    (hd : docsOfList (loadMeta dir.metaFile).1 e.files = []) :
    build_or_load_vectorstore e =
      .ok { env := withIndex e (dictUpdate (loadMeta dir.metaFile).1
              (metaOfList (loadMeta dir.metaFile).1 e.files)) dir.records,
            embedded := [], store := dir.records,
            warned := (loadMeta dir.metaFile).2 } := by
  have hscan := scanGo_ok (loadMeta dir.metaFile).1 e.files
    { newDocs := [], newMeta := [] } hhash hnodup (fun _ _ => rfl)
  simp only [List.nil_append] at hscan
  simp [build_or_load_vectorstore, withIndex,
    migrate_of_charlie_some e dir hch, ensureDir_of_charlie_some e dir hch,
    hch, hscan, hd]

theorem build_embed (e : Env) (dir : IndexDir)
    (hch : e.charlie = some dir)
    (hhash : ∀ f ∈ e.files, f.eligible = true → (file_hash f).isSome = true)
    (hnodup : (e.files.map (fun f => f.path)).Nodup)
    (hd : ¬ docsOfList (loadMeta dir.metaFile).1 e.files = [])
    (hek : e.embedOk = true) :
    build_or_load_vectorstore e =
      .ok { env := withIndex e (dictUpdate (loadMeta dir.metaFile).1
              (metaOfList (loadMeta dir.metaFile).1 e.files))
              (dir.records ++ splitDocuments
                (docsOfList (loadMeta dir.metaFile).1 e.files)),
            embedded := docsOfList (loadMeta dir.metaFile).1 e.files,
            store := dir.records ++ splitDocuments
              (docsOfList (loadMeta dir.metaFile).1 e.files),
            warned := (loadMeta dir.metaFile).2 } := by
  have hscan := scanGo_ok (loadMeta dir.metaFile).1 e.files
    { newDocs := [], newMeta := [] } hhash hnodup (fun _ _ => rfl)
  simp only [List.nil_append] at hscan
  simp [build_or_load_vectorstore, withIndex,
    migrate_of_charlie_some e dir hch, ensureDir_of_charlie_some e dir hch,
    hch, hscan, hd, hek]

theorem build_embed_fail (e : Env) (dir : IndexDir)
    (hch : e.charlie = some dir)
    (hhash : ∀ f ∈ e.files, f.eligible = true → (file_hash f).isSome = true)
    (hnodup : (e.files.map (fun f => f.path)).Nodup)
    (hd : ¬ docsOfList (loadMeta dir.metaFile).1 e.files = [])
    (hek : e.embedOk = false) :
    build_or_load_vectorstore e = .error (.embedFail e) := by
  have hscan := scanGo_ok (loadMeta dir.metaFile).1 e.files
    { newDocs := [], newMeta := [] } hhash hnodup (fun _ _ => rfl)
  simp only [List.nil_append] at hscan
  simp [build_or_load_vectorstore,
    migrate_of_charlie_some e dir hch, ensureDir_of_charlie_some e dir hch,
    hch, hscan, hd, hek]

theorem docsOfList_eq_nil (old : Meta) (files : List ScanFile)
    (h : ∀ f ∈ files, f.eligible = true →
      lookupMeta old f.path = f.hashResult) :
    docsOfList old files = [] := by
  unfold docsOfList
  rw [List.filterMap_eq_nil_iff]
  intro f hf
  by_cases he : f.eligible = true
  · simp [contributesDoc, he, h f hf he]
  · simp [contributesDoc, he]

theorem metaOfList_eq_nil (old : Meta) (files : List ScanFile)
    (h : ∀ f ∈ files, f.eligible = true →
      lookupMeta old f.path = f.hashResult) :
    metaOfList old files = [] := by
  unfold metaOfList
  rw [List.filterMap_eq_nil_iff]
  intro f hf
  by_cases he : f.eligible = true
  · simp [contributesMeta, he, h f hf he]
  · simp [contributesMeta, he]

theorem migrate_files (e : Env) : (migrate e).files = e.files := by
  unfold migrate; split <;> rfl

theorem migrate_embedOk (e : Env) : (migrate e).embedOk = e.embedOk := by
  unfold migrate; split <;> rfl

theorem ensureDir_files (e : Env) : (ensureDir e).files = e.files := by
  unfold ensureDir; split <;> rfl

theorem ensureDir_embedOk (e : Env) : (ensureDir e).embedOk = e.embedOk := by
  unfold ensureDir; split <;> rfl

theorem ensureDir_codeflow (e : Env) : (ensureDir e).codeflow = e.codeflow := by
  unfold ensureDir; split <;> rfl

theorem ensureDir_charlie_isSome (e : Env) :
    ∃ d, (ensureDir e).charlie = some d := by
  unfold ensureDir
  cases h : e.charlie with
  | none => exact ⟨emptyIndexDir, by simp [h]⟩
  | some d => exact ⟨d, by simp [h]⟩

theorem build_eq_normalize (e : Env) :
    build_or_load_vectorstore e =
      build_or_load_vectorstore (ensureDir (migrate e)) := by
  obtain ⟨d, hd⟩ := ensureDir_charlie_isSome (migrate e)
  have h1 : migrate (ensureDir (migrate e)) = ensureDir (migrate e) :=
    migrate_of_charlie_some _ _ hd
  have h2 : ensureDir (ensureDir (migrate e)) = ensureDir (migrate e) :=
    ensureDir_of_charlie_some _ _ hd
  show build_or_load_vectorstore e = _
  unfold build_or_load_vectorstore
  rw [h1, h2]

theorem scanGo_err_of_bad_hash (old : Meta) (files : List ScanFile)
    (f : ScanFile) (hmem : f ∈ files) (he : f.eligible = true)
    (hh : f.hashResult = none) :
    ∀ st : Pending, ∃ p, scanGo old st files = .error p := by
  induction files with
  | nil => simp at hmem
  | cons g fs ih =>
    intro st
    rcases List.mem_cons.mp hmem with hfg | hfs
    · subst hfg
      refine ⟨f.path, ?_⟩
      have hstep : scanStep old st f = .error f.path := by
        simp [scanStep, should_index, he, file_hash, hh]
      exact scanGo_cons_of_err old st f fs f.path hstep
    · cases hs : scanStep old st g with
      | error p => exact ⟨p, scanGo_cons_of_err old st g fs p hs⟩
      | ok st2 =>
        obtain ⟨p, hp⟩ := ih hfs st2
        exact ⟨p, by rw [scanGo_cons_of_ok old st st2 g fs hs]; exact hp⟩

theorem build_ok_hashes (e : Env) (r : Result)
    (h : build_or_load_vectorstore e = .ok r) :
    ∀ f ∈ e.files, f.eligible = true → (file_hash f).isSome = true := by
  intro f hf he
  cases hh : f.hashResult with
  | some w => simp [file_hash, hh]
  | none =>
    exfalso
    have hf2 : f ∈ (ensureDir (migrate e)).files := by
      rw [ensureDir_files, migrate_files]; exact hf
    obtain ⟨p, hp⟩ := scanGo_err_of_bad_hash
      (loadMeta ((ensureDir (migrate e)).charlie.getD emptyIndexDir).metaFile).1
      (ensureDir (migrate e)).files f hf2 he hh
      { newDocs := [], newMeta := [] }
    rw [show build_or_load_vectorstore e =
        .error (.hashErr p (ensureDir (migrate e))) from by
      simp [build_or_load_vectorstore, hp]] at h
    cases h

theorem lookup_dictUpdate_metaOfList (old : Meta) (files : List ScanFile)
    (hnodup : (files.map (fun f => f.path)).Nodup)
    (f : ScanFile) (hmem : f ∈ files) (he : f.eligible = true) (h : Nat)
    (hh : f.hashResult = some h) (hl : f.loadResult.isSome = true) :
    lookupMeta (dictUpdate old (metaOfList old files)) f.path = some h := by
  by_cases hskip : lookupMeta old f.path = some h
  · have hc : contributesMeta old f = none := by
      simp [contributesMeta, hh, hskip]
    rw [lookupMeta_dictUpdate_none _ _ _
      (lookupMeta_metaOfList_of_none old files f hmem hnodup hc)]
    exact hskip
  · have hc : contributesMeta old f = some (f.path, h) := by
      simp [contributesMeta, he, hh, hskip, hl]
    exact lookupMeta_dictUpdate_some old _ _ _
      (metaOfList_keys_nodup old files hnodup)
      (lookupMeta_metaOfList_of_some old files f h hmem hnodup hc)

theorem build_ok_shape (e : Env) (dir : IndexDir) (r : Result)
    (hch : e.charlie = some dir)
    (hnodup : (e.files.map (fun f => f.path)).Nodup)
    (h : build_or_load_vectorstore e = .ok r) :
    r.env = withIndex e (dictUpdate (loadMeta dir.metaFile).1
        (metaOfList (loadMeta dir.metaFile).1 e.files)) r.store ∧
      r.embedded = docsOfList (loadMeta dir.metaFile).1 e.files ∧
      r.warned = (loadMeta dir.metaFile).2 ∧
      (r.store = dir.records ∨
        r.store = dir.records ++ splitDocuments
          (docsOfList (loadMeta dir.metaFile).1 e.files)) := by
  have hhash := build_ok_hashes e r h
  by_cases hd : docsOfList (loadMeta dir.metaFile).1 e.files = []
  · rw [build_no_changes e dir hch hhash hnodup hd] at h
    have hr := (Except.ok.injEq _ _).mp h.symm
    subst hr
    exact ⟨rfl, hd.symm, rfl, Or.inl rfl⟩
  · cases hek : e.embedOk with
    | true =>
      rw [build_embed e dir hch hhash hnodup hd hek] at h
      have hr := (Except.ok.injEq _ _).mp h.symm
      subst hr
      exact ⟨rfl, rfl, rfl, Or.inr rfl⟩
    | false =>
      rw [build_embed_fail e dir hch hhash hnodup hd hek] at h
      cases h

theorem build_of_fresh (e : Env) (hcf : e.codeflow = none)
    (hch : e.charlie = none) :
    build_or_load_vectorstore e =
      build_or_load_vectorstore { e with charlie := some emptyIndexDir } := by
  rw [build_eq_normalize e]
  have h1 : migrate e = e := by simp [migrate, hcf]
  have h2 : ensureDir e = { e with charlie := some emptyIndexDir } := by
    simp [ensureDir, hch]
  rw [h1, h2]

theorem build_of_legacy (e : Env) (d : IndexDir) (hcf : e.codeflow = some d)
    (hch : e.charlie = none) :
    build_or_load_vectorstore e =
      build_or_load_vectorstore
        { e with codeflow := none, charlie := some d } := by
  rw [build_eq_normalize e]
  have h1 : migrate e = { e with codeflow := none, charlie := some d } := by
    simp [migrate, hcf, hch]
  have h2 : ensureDir { e with codeflow := none, charlie := some d } =
      { e with codeflow := none, charlie := some d } := by
    simp [ensureDir]
  rw [h1, h2]

theorem build_completes (e : Env) (dir : IndexDir)
    (hch : e.charlie = some dir)
    (hhash : ∀ f ∈ e.files, f.eligible = true → (file_hash f).isSome = true)
    (hnodup : (e.files.map (fun f => f.path)).Nodup)
    (hek : e.embedOk = true) :
    ∃ r m, build_or_load_vectorstore e = .ok r ∧
      r.warned = (loadMeta dir.metaFile).2 ∧ metaFileOf r.env = .valid m := by
  by_cases hd : docsOfList (loadMeta dir.metaFile).1 e.files = []
  · exact ⟨_, _, build_no_changes e dir hch hhash hnodup hd, rfl, rfl⟩
  · exact ⟨_, _, build_embed e dir hch hhash hnodup hd hek, rfl, rfl⟩

theorem docsOfList_eq_single (old : Meta) (files : List ScanFile)
    (f : ScanFile) (t : String)
    (hnodup : (files.map (fun f => f.path)).Nodup)
    (hmem : f ∈ files) (hcf : contributesDoc old f = some (f.path, t))
    (hothers : ∀ g ∈ files, ¬ g = f → contributesDoc old g = none) :
    docsOfList old files = [(f.path, t)] := by
  induction files with
  | nil => simp at hmem
  | cons g fs ih =>
    simp only [List.map_cons, List.nodup_cons] at hnodup
    by_cases hgf : g = f
    · subst hgf
      have hnil : docsOfList old fs = [] := by
        unfold docsOfList
        rw [List.filterMap_eq_nil_iff]
        intro q hq
        refine hothers q (by simp [hq]) ?_
        intro hc
        exact hnodup.1 (hc ▸ List.mem_map_of_mem (fun x => x.path) hq)
      simp only [docsOfList, List.filterMap_cons, hcf]
      show (g.path, t) :: docsOfList old fs = [(g.path, t)]
      rw [hnil]
    · have hg : contributesDoc old g = none := hothers g (by simp) hgf
      have hmem2 : f ∈ fs := by
        rcases List.mem_cons.mp hmem with h1 | h1
        · exact absurd h1.symm hgf
        · exact h1
      simp only [docsOfList, List.filterMap_cons, hg]
      exact ih hnodup.2 hmem2
        (fun q hq hqf => hothers q (by simp [hq]) hqf)

theorem changedSet_eq_single (old : Meta) (files : List ScanFile)
    (f : ScanFile)
    (hnodup : (files.map (fun f => f.path)).Nodup)
    (hmem : f ∈ files)
    (he : f.eligible = true)
    (hchanged : ¬ lookupMeta old f.path = f.hashResult)
    (hothers : ∀ g ∈ files, ¬ g = f → g.eligible = true →
      lookupMeta old g.path = g.hashResult) :
    changedSet old files = [f] := by
  induction files with
  | nil => simp at hmem
  | cons g fs ih =>
    simp only [List.map_cons, List.nodup_cons] at hnodup
    by_cases hgf : g = f
    · subst hgf
      have hnil : changedSet old fs = [] := by
        unfold changedSet
        rw [List.filter_eq_nil_iff]
        intro q hq
        have hqg : ¬ q = g := by
          intro hc
          exact hnodup.1 (hc ▸ List.mem_map_of_mem (fun x => x.path) hq)
        by_cases hqe : q.eligible = true
        · simp [hqe, hothers q (by simp [hq]) hqg hqe]
        · simp [hqe]
      have hcond : (g.eligible &&
          ! decide (lookupMeta old g.path = g.hashResult)) = true := by
        simp [he, hchanged]
      simp only [changedSet, List.filter_cons, hcond, if_pos]
      show g :: changedSet old fs = [g]
      rw [hnil]
    · have hcond : (g.eligible &&
          ! decide (lookupMeta old g.path = g.hashResult)) = false := by
        by_cases hge : g.eligible = true
        · simp [hge, hothers g (by simp) hgf hge]
        · simp [hge]
      have hmem2 : f ∈ fs := by
        rcases List.mem_cons.mp hmem with h1 | h1
        · exact absurd h1.symm hgf
        · exact h1
      simp only [changedSet, List.filter_cons, hcond]
      show changedSet old fs = [f]
      exact ih hnodup.2 hmem2
        (fun q hq hqf hqe => hothers q (by simp [hq]) hqf hqe)

/-- C9: on a run where the pending document batch is empty and no prior
vector index exists on disk (empty project directory, first run), the
façade returns a handle backed by an empty vector index rather than
erroring, and a similarity search with any query on that handle returns an
empty ordered sequence, not an error. -/
theorem c9_empty_project_empty_search (e : Env)
    (score : String → String → Nat) (query : String) (k : Nat)
    (hcf : e.codeflow = none) (hch : e.charlie = none)
    (hfiles : e.files = []) :
    ∃ r, build_or_load_vectorstore e = .ok r ∧ r.store = [] ∧
      r.embedded = [] ∧ similaritySearch score r.store query k = [] := by
  rw [build_of_fresh e hcf hch]
  have hhash : ∀ f ∈ ({ e with charlie := some emptyIndexDir } : Env).files,
      f.eligible = true → (file_hash f).isSome = true := by
    intro f hf _
    have hf2 : f ∈ e.files := hf
    rw [hfiles] at hf2
    simp at hf2
  have hnodup : ((({ e with charlie := some emptyIndexDir } : Env).files).map
      (fun f => f.path)).Nodup := by
    show ((e.files).map (fun f => f.path)).Nodup
    rw [hfiles]; simp
  have hdocs : docsOfList (loadMeta emptyIndexDir.metaFile).1
      ({ e with charlie := some emptyIndexDir } : Env).files = [] := by
    show docsOfList (loadMeta emptyIndexDir.metaFile).1 e.files = []
    rw [hfiles]; rfl
  exact ⟨_, build_no_changes _ emptyIndexDir rfl hhash hnodup hdocs, rfl, rfl,
    by simp [similaritySearch, emptyIndexDir, rankAll]⟩

/-- Witness for C9 at a concrete empty project. -/
theorem c9_witness :
    ∃ r, build_or_load_vectorstore
        { codeflow := none, charlie := none, files := [], embedOk := true } =
        .ok r ∧ r.store = [] ∧ r.embedded = [] ∧
      similaritySearch (fun _ _ => 0) r.store "anything" 5 = [] :=
  c9_empty_project_empty_search
    { codeflow := none, charlie := none, files := [], embedOk := true }
    (fun _ _ => 0) "anything" 5 rfl rfl rfl

/-- C4: loading index metadata never aborts indexing — with no
`index_meta.json` the pass proceeds from an empty prior mapping and no
warning, and with a corrupt `index_meta.json` it proceeds from an empty
prior mapping after logging a warning; in both cases the pass completes
with a valid metadata file rather than raising. -/
theorem c4_metadata_load_never_aborts (e1 e2 : Env) (d1 d2 : IndexDir)
    (hch1 : e1.charlie = some d1) (hmf1 : d1.metaFile = .absent)
    (hhash1 : ∀ f ∈ e1.files, f.eligible = true → (file_hash f).isSome = true)
    (hnodup1 : (e1.files.map (fun f => f.path)).Nodup)
    (hek1 : e1.embedOk = true)
    (hch2 : e2.charlie = some d2) (hmf2 : d2.metaFile = .corrupt)
    (hhash2 : ∀ f ∈ e2.files, f.eligible = true → (file_hash f).isSome = true)
    (hnodup2 : (e2.files.map (fun f => f.path)).Nodup)
    (hek2 : e2.embedOk = true) :
    (∃ r1 m1, build_or_load_vectorstore e1 = .ok r1 ∧ r1.warned = false ∧
      metaFileOf r1.env = .valid m1 ∧
      loadMeta d1.metaFile = ([], false)) ∧
    (∃ r2 m2, build_or_load_vectorstore e2 = .ok r2 ∧ r2.warned = true ∧
      metaFileOf r2.env = .valid m2 ∧
      loadMeta d2.metaFile = ([], true)) := by
  constructor
  · obtain ⟨r, m, hr, hw, hm⟩ := build_completes e1 d1 hch1 hhash1 hnodup1 hek1
    exact ⟨r, m, hr, by rw [hw, hmf1]; rfl, hm, by rw [hmf1]; rfl⟩
  · obtain ⟨r, m, hr, hw, hm⟩ := build_completes e2 d2 hch2 hhash2 hnodup2 hek2
    exact ⟨r, m, hr, by rw [hw, hmf2]; rfl, hm, by rw [hmf2]; rfl⟩

/-- Witness for C4 at one project with no metadata file and one with a
corrupt metadata file. -/
theorem c4_witness :
    (∃ r1 m1, build_or_load_vectorstore
        { codeflow := none, charlie := some (IndexDir.mk .absent false []),
          files := [{ path := "/p/a.py", eligible := true,
                      hashResult := some 7, loadResult := some "x" }],
          embedOk := true } = .ok r1 ∧ r1.warned = false ∧
      metaFileOf r1.env = .valid m1 ∧
      loadMeta (IndexDir.mk .absent false []).metaFile = ([], false)) ∧
    (∃ r2 m2, build_or_load_vectorstore
        { codeflow := none, charlie := some (IndexDir.mk .corrupt false []),
          files := [{ path := "/p/a.py", eligible := true,
                      hashResult := some 7, loadResult := some "x" }],
          embedOk := true } = .ok r2 ∧ r2.warned = true ∧
      metaFileOf r2.env = .valid m2 ∧
      loadMeta (IndexDir.mk .corrupt false []).metaFile = ([], true)) :=
  c4_metadata_load_never_aborts _ _ _ _ rfl rfl
    (by decide) (by decide) rfl rfl rfl (by decide) (by decide) rfl

/-- C6: when the embedding / vector index service fails during a pass with
changed documents, `build_or_load_vectorstore` surfaces the failure to its
caller (the exception propagates) and `index_meta.json` is left unchanged
from its prior persisted state, because the metadata file is written only
after the pass has fully completed. -/
theorem c6_embed_failure_leaves_meta (e : Env) (dir : IndexDir) (f : ScanFile)
    (hch : e.charlie = some dir)
    (hhash : ∀ g ∈ e.files, g.eligible = true → (file_hash g).isSome = true)
    (hnodup : (e.files.map (fun g => g.path)).Nodup)
    (hmem : f ∈ e.files) (he : f.eligible = true)
    (hchanged : ¬ lookupMeta (loadMeta dir.metaFile).1 f.path = f.hashResult)
    (hl : f.loadResult.isSome = true)
    (hek : e.embedOk = false) :
    build_or_load_vectorstore e = .error (.embedFail e) ∧
      metaFileOf e = dir.metaFile := by
  have hd : ¬ docsOfList (loadMeta dir.metaFile).1 e.files = [] := by
    intro hnil
    unfold docsOfList at hnil
    have hc := List.filterMap_eq_nil_iff.mp hnil f hmem
    obtain ⟨t, ht⟩ := Option.isSome_iff_exists.mp hl
    simp [contributesDoc, he, hchanged, ht] at hc
  exact ⟨build_embed_fail e dir hch hhash hnodup hd hek,
    by simp [metaFileOf, hch]⟩

/-- Witness for C6 at a project with one changed file and a failing
embedding service. -/
theorem c6_witness :
    build_or_load_vectorstore
        { codeflow := none,
          charlie := some (IndexDir.mk (.valid [("/p/a.py", 7)]) true []),
          files := [{ path := "/p/a.py", eligible := true,
                      hashResult := some 8, loadResult := some "x" }],
          embedOk := false } =
      .error (.embedFail
        { codeflow := none,
          charlie := some (IndexDir.mk (.valid [("/p/a.py", 7)]) true []),
          files := [{ path := "/p/a.py", eligible := true,
                      hashResult := some 8, loadResult := some "x" }],
          embedOk := false }) ∧
      metaFileOf
        { codeflow := none,
          charlie := some (IndexDir.mk (.valid [("/p/a.py", 7)]) true []),
          files := [{ path := "/p/a.py", eligible := true,
                      hashResult := some 8, loadResult := some "x" }],
          embedOk := false } = .valid [("/p/a.py", 7)] :=
  c6_embed_failure_leaves_meta _ _
    { path := "/p/a.py", eligible := true, hashResult := some 8,
      loadResult := some "x" }
    rfl (by decide) (by decide) (by decide) rfl (by decide) rfl rfl

/-- C7 as stated is false on the code: after a pass in which a previously
indexed path no longer appears in the scan, the persisted metadata still
contains that path (line 96 merges `old_meta.update(new_meta)` and nothing
removes stale keys). -/
theorem c7_counterexample :
    build_or_load_vectorstore c7Env = .ok c7Result ∧
    metaFileOf c7Result.env = .valid [("/gone.py", 5)] ∧
    ¬ lookupMeta [("/gone.py", 5)] "/gone.py" = none := by decide

/-- C7 amended: for every path present in the previously persisted metadata
mapping but no longer appearing in the current scan, the entry for that
path is retained unchanged (not removed) in the metadata mapping persisted
at the end of the pass. -/
theorem c7_amended_stale_entries_retained (e : Env) (dir : IndexDir)
    (p : String) (v : Nat) (r : Result)
    (hch : e.charlie = some dir)
    (hnodup : (e.files.map (fun f => f.path)).Nodup)
    (hold : lookupMeta (loadMeta dir.metaFile).1 p = some v)
    (hnot : p ∉ e.files.map (fun f => f.path))
    (h : build_or_load_vectorstore e = .ok r) :
    ∃ m, metaFileOf r.env = .valid m ∧ lookupMeta m p = some v := by
  obtain ⟨henv, _, _, _⟩ := build_ok_shape e dir r hch hnodup h
  refine ⟨_, by rw [henv]; rfl, ?_⟩
  rw [lookupMeta_dictUpdate_none _ _ _
    (lookupMeta_metaOfList_of_not_mem _ _ _ hnot)]
  exact hold

/-- Witness for the amended C7 at a concrete project with one stale entry. -/
theorem c7_amended_witness :
    ∃ m, metaFileOf c7Result.env = .valid m ∧
      lookupMeta m "/gone.py" = some 5 :=
  c7_amended_stale_entries_retained c7Env
    (IndexDir.mk (.valid [("/gone.py", 5)]) true []) "/gone.py" 5
    c7Result rfl (by decide) (by decide) (by decide) (by decide)

/-- C10: for every file whose text loading raises during a pass, no new
fingerprint is recorded for that file: the metadata persisted at the end of
the pass maps its path exactly as the prior metadata did (previous entry
kept if one existed, no entry otherwise), so the file is reconsidered on
the next pass. -/
theorem c10_failed_load_keeps_prior_entry (e : Env) (dir : IndexDir)
    (f : ScanFile) (r : Result)
    (hch : e.charlie = some dir)
    (hnodup : (e.files.map (fun g => g.path)).Nodup)
    (hmem : f ∈ e.files) (hl : f.loadResult = none)
    (h : build_or_load_vectorstore e = .ok r) :
    ∃ m, metaFileOf r.env = .valid m ∧
      lookupMeta m f.path = lookupMeta (loadMeta dir.metaFile).1 f.path := by
  obtain ⟨henv, _, _, _⟩ := build_ok_shape e dir r hch hnodup h
  refine ⟨_, by rw [henv]; rfl, ?_⟩
  have hc : contributesMeta (loadMeta dir.metaFile).1 f = none := by
    simp [contributesMeta, hl]
  exact lookupMeta_dictUpdate_none _ _ _
    (lookupMeta_metaOfList_of_none _ _ f hmem hnodup hc)

/-- Witness for C10 at a concrete project with one changed but unloadable
file. -/
theorem c10_witness :
    ∃ m, metaFileOf c10Result.env = .valid m ∧
      lookupMeta m "/p/b.py" =
        lookupMeta
          (loadMeta (IndexDir.mk (.valid [("/p/b.py", 3)]) true []).metaFile).1
          "/p/b.py" :=
  c10_failed_load_keeps_prior_entry c10Env
    (IndexDir.mk (.valid [("/p/b.py", 3)]) true [])
    { path := "/p/b.py", eligible := true, hashResult := some 9,
      loadResult := none }
    c10Result rfl (by decide) (by decide) rfl (by decide)

/-- C2: a file previously indexed with fingerprint F1 and modified so its
current fingerprint F2 differs is exactly the content of the `changed` set
and the only file re-embedded; every other eligible file whose stored
fingerprint equals its current one lands in the disjoint `unchanged` set
and is skipped. -/
theorem c2_change_detection (e : Env) (dir : IndexDir) (f : ScanFile)
    (F1 F2 : Nat) (t : String)
    (hch : e.charlie = some dir)
    (hnodup : (e.files.map (fun g => g.path)).Nodup)
    (hmem : f ∈ e.files) (he : f.eligible = true)
    (hold : lookupMeta (loadMeta dir.metaFile).1 f.path = some F1)
    (hh : f.hashResult = some F2) (hne : ¬ F1 = F2)
    (hl : f.loadResult = some t)
    (hothers : ∀ g ∈ e.files, ¬ g = f → g.eligible = true →
      lookupMeta (loadMeta dir.metaFile).1 g.path = g.hashResult)
    (hhash : ∀ g ∈ e.files, g.eligible = true → (file_hash g).isSome = true)
    (hek : e.embedOk = true) :
    changedSet (loadMeta dir.metaFile).1 e.files = [f] ∧
    (∀ g, ¬ (g ∈ changedSet (loadMeta dir.metaFile).1 e.files ∧
             g ∈ unchangedSet (loadMeta dir.metaFile).1 e.files)) ∧
    (∀ g ∈ e.files, ¬ g = f → g.eligible = true →
      g ∈ unchangedSet (loadMeta dir.metaFile).1 e.files) ∧
    ∃ r, build_or_load_vectorstore e = .ok r ∧
      r.embedded = [(f.path, t)] := by
  have hchanged : ¬ lookupMeta (loadMeta dir.metaFile).1 f.path =
      f.hashResult := by
    rw [hold, hh]
    simp [hne]
  refine ⟨changedSet_eq_single _ _ f hnodup hmem he hchanged hothers,
    ?_, ?_, ?_⟩
  · intro g hgg
    obtain ⟨h1, h2⟩ := hgg
    simp only [changedSet, List.mem_filter] at h1
    simp only [unchangedSet, List.mem_filter] at h2
    have b1 := h1.2
    have b2 := h2.2
    simp at b1 b2
    exact b1.2 b2.2
  · intro g hg hgf hge
    simp [unchangedSet, List.mem_filter, hg, hge, hothers g hg hgf hge]
  · have hcf : contributesDoc (loadMeta dir.metaFile).1 f =
        some (f.path, t) := by
      simp [contributesDoc, he, hchanged, hl]
    have hdocs : docsOfList (loadMeta dir.metaFile).1 e.files =
        [(f.path, t)] := by
      refine docsOfList_eq_single _ _ f t hnodup hmem hcf ?_
      intro g hg hgf
      by_cases hge : g.eligible = true
      · simp [contributesDoc, hothers g hg hgf hge]
      · simp [contributesDoc, hge]
    have hd : ¬ docsOfList (loadMeta dir.metaFile).1 e.files = [] := by
      rw [hdocs]; simp
    exact ⟨_, build_embed e dir hch hhash hnodup hd hek, hdocs⟩

/-- Witness for C2 at a concrete project with one modified and one
untouched file. -/
theorem c2_witness :
    changedSet (loadMeta c2Dir.metaFile).1 c2Env.files = [c2FileA] ∧
    (∀ g, ¬ (g ∈ changedSet (loadMeta c2Dir.metaFile).1 c2Env.files ∧
             g ∈ unchangedSet (loadMeta c2Dir.metaFile).1 c2Env.files)) ∧
    (∀ g ∈ c2Env.files, ¬ g = c2FileA → g.eligible = true →
      g ∈ unchangedSet (loadMeta c2Dir.metaFile).1 c2Env.files) ∧
    ∃ r, build_or_load_vectorstore c2Env = .ok r ∧
      r.embedded = [("/p/a.py", "new")] :=
  c2_change_detection c2Env c2Dir c2FileA 1 9 "new" rfl (by decide)
    (by decide) rfl (by decide) rfl (by decide) rfl (by decide) (by decide)
    rfl

/-- C8: when the legacy `.codeflow_index` exists and `.charlie_index` does
not, one call moves (not copies) the legacy directory to the new name: the
pass runs against the migrated content, afterwards the records sit under
the new directory, no legacy directory remains, and when the current
directory already exists the legacy directory is left untouched. -/
theorem c8_legacy_migration (e : Env) (d : IndexDir)
    (hcf : e.codeflow = some d) (hch : e.charlie = none)
    (hhash : ∀ f ∈ e.files, f.eligible = true → (file_hash f).isSome = true)
    (hnodup : (e.files.map (fun f => f.path)).Nodup)
    (hek : e.embedOk = true) :
    (∃ r sfx dir2, build_or_load_vectorstore e = .ok r ∧
      r.env.codeflow = none ∧ r.env.charlie = some dir2 ∧
      dir2.records = d.records ++ sfx ∧
      metaFileOf r.env = .valid (dictUpdate (loadMeta d.metaFile).1
        (metaOfList (loadMeta d.metaFile).1 e.files))) ∧
    (∀ e2 c, e2.charlie = some c → migrate e2 = e2) := by
  constructor
  · rw [build_of_legacy e d hcf hch]
    by_cases hd : docsOfList (loadMeta d.metaFile).1 e.files = []
    · exact ⟨_, [], _,
        build_no_changes { e with codeflow := none, charlie := some d } d rfl hhash hnodup hd,
        rfl, rfl, by simp, rfl⟩
    · exact ⟨_, splitDocuments (docsOfList (loadMeta d.metaFile).1 e.files),
        _,
        build_embed { e with codeflow := none, charlie := some d } d rfl hhash hnodup hd hek,
        rfl, rfl, rfl, rfl⟩
  · exact fun e2 c h => migrate_of_charlie_some e2 c h

/-- Witness for C8 at a concrete project holding only the legacy index
directory. -/
theorem c8_witness :
    (∃ r sfx dir2, build_or_load_vectorstore c8Env = .ok r ∧
      r.env.codeflow = none ∧ r.env.charlie = some dir2 ∧
      dir2.records = c8Legacy.records ++ sfx ∧
      metaFileOf r.env = .valid (dictUpdate (loadMeta c8Legacy.metaFile).1
        (metaOfList (loadMeta c8Legacy.metaFile).1 c8Env.files))) ∧
    (∀ e2 c, e2.charlie = some c → migrate e2 = e2) :=
  c8_legacy_migration c8Env c8Legacy rfl rfl (by decide) (by decide) rfl

/-- C1: a second `build_or_load_vectorstore` run on the state left by a
successful first run, with no filesystem changes in between, re-embeds
nothing — every eligible file is skipped because its stored fingerprint in
the persisted metadata equals its current fingerprint — and writes
`index_meta.json` back with exactly the mapping the first run persisted. -/
theorem c1_second_pass_idempotent (e : Env) (r1 : Result)
    (hnodup : (e.files.map (fun f => f.path)).Nodup)
    (hload : ∀ f ∈ e.files, f.eligible = true → f.loadResult.isSome = true)
    (h1 : build_or_load_vectorstore e = .ok r1) :
    ∃ r2 m1, build_or_load_vectorstore r1.env = .ok r2 ∧
      r2.embedded = [] ∧
      metaFileOf r1.env = .valid m1 ∧
      (∀ f ∈ e.files, f.eligible = true →
        lookupMeta m1 f.path = f.hashResult) ∧
      metaFileOf r2.env = metaFileOf r1.env ∧
      r2.store = r1.store := by
  obtain ⟨dir1, hch1⟩ := ensureDir_charlie_isSome (migrate e)
  have h1b : build_or_load_vectorstore (ensureDir (migrate e)) = .ok r1 := by
    rw [← build_eq_normalize e]; exact h1
  have hfiles1 : (ensureDir (migrate e)).files = e.files := by
    rw [ensureDir_files, migrate_files]
  have hhash1 := build_ok_hashes _ r1 h1b
  have hnodup1 : ((ensureDir (migrate e)).files.map
      (fun f => f.path)).Nodup := by
    rw [hfiles1]; exact hnodup
  obtain ⟨henv, hemb, hwarn, hstore⟩ :=
    build_ok_shape _ dir1 r1 hch1 hnodup1 h1b
  have hch2 : r1.env.charlie = some (IndexDir.mk
      (.valid (dictUpdate (loadMeta dir1.metaFile).1
        (metaOfList (loadMeta dir1.metaFile).1
          (ensureDir (migrate e)).files))) true r1.store) := by
    rw [henv]; rfl
  have hfiles2 : r1.env.files = e.files := by
    rw [henv]
    show (ensureDir (migrate e)).files = e.files
    exact hfiles1
  have hmatch : ∀ f ∈ e.files, f.eligible = true →
      lookupMeta (dictUpdate (loadMeta dir1.metaFile).1
        (metaOfList (loadMeta dir1.metaFile).1
          (ensureDir (migrate e)).files)) f.path = f.hashResult := by
    intro f hf he
    have hf1 : f ∈ (ensureDir (migrate e)).files := by
      rw [hfiles1]; exact hf
    obtain ⟨hv, hh⟩ := Option.isSome_iff_exists.mp (hhash1 f hf1 he)
    have hh2 : f.hashResult = some hv := hh
    rw [hh2]
    exact lookup_dictUpdate_metaOfList _ _ hnodup1 f hf1 he hv hh2
      (hload f hf he)
  have hhash2 : ∀ f ∈ r1.env.files, f.eligible = true →
      (file_hash f).isSome = true := by
    rw [hfiles2]
    intro f hf he
    exact hhash1 f (by rw [hfiles1]; exact hf) he
  have hnodup2 : (r1.env.files.map (fun f => f.path)).Nodup := by
    rw [hfiles2]; exact hnodup
  have hdocs2 : docsOfList (loadMeta (IndexDir.mk
      (.valid (dictUpdate (loadMeta dir1.metaFile).1
        (metaOfList (loadMeta dir1.metaFile).1
          (ensureDir (migrate e)).files))) true r1.store).metaFile).1
      r1.env.files = [] := by
    show docsOfList (dictUpdate (loadMeta dir1.metaFile).1
      (metaOfList (loadMeta dir1.metaFile).1
        (ensureDir (migrate e)).files)) r1.env.files = []
    rw [hfiles2]
    exact docsOfList_eq_nil _ _ hmatch
  have hmeta2 : metaOfList (dictUpdate (loadMeta dir1.metaFile).1
      (metaOfList (loadMeta dir1.metaFile).1
        (ensureDir (migrate e)).files)) r1.env.files = [] := by
    rw [hfiles2]
    exact metaOfList_eq_nil _ _ hmatch
  have hrun2 := build_no_changes r1.env (IndexDir.mk
    (.valid (dictUpdate (loadMeta dir1.metaFile).1
      (metaOfList (loadMeta dir1.metaFile).1
        (ensureDir (migrate e)).files))) true r1.store)
    hch2 hhash2 hnodup2 hdocs2
  refine ⟨_, dictUpdate (loadMeta dir1.metaFile).1
    (metaOfList (loadMeta dir1.metaFile).1 (ensureDir (migrate e)).files),
    hrun2, rfl, ?_, hmatch, ?_, rfl⟩
  · simp [metaFileOf, hch2]
  · show MetaFile.valid (dictUpdate (dictUpdate (loadMeta dir1.metaFile).1
      (metaOfList (loadMeta dir1.metaFile).1 (ensureDir (migrate e)).files))
      (metaOfList (dictUpdate (loadMeta dir1.metaFile).1
        (metaOfList (loadMeta dir1.metaFile).1
          (ensureDir (migrate e)).files)) r1.env.files)) = metaFileOf r1.env
    rw [hmeta2]
    simp [metaFileOf, hch2, dictUpdate]

/-- Witness for C1 at a concrete one-file project and the concrete result
of its first pass. -/
theorem c1_witness :
    ∃ r2 m1, build_or_load_vectorstore c1Run1.env = .ok r2 ∧
      r2.embedded = [] ∧
      metaFileOf c1Run1.env = .valid m1 ∧
      (∀ f ∈ c1Env.files, f.eligible = true →
        lookupMeta m1 f.path = f.hashResult) ∧
      metaFileOf r2.env = metaFileOf c1Run1.env ∧
      r2.store = c1Run1.store :=
  c1_second_pass_idempotent c1Env c1Run1 (by decide) (by decide) (by decide)

/-- C3: evidence that the code contradicts the claim — `current_hash =
file_hash(file_path)` sits on line 45, outside the `try` block of lines
51-68, so the `IOError` raised for the unreadable tenth file propagates out
of `build_or_load_vectorstore`; the pass aborts instead of indexing the
nine readable files and completing. -/
theorem c3_unreadable_file_aborts_pass :
    build_or_load_vectorstore c3Env =
      .error (.hashErr "/p/f9.py" (ensureDir (migrate c3Env))) := by
  decide

/-- C5 is false on the code: the save issues no rename at all (so it is not
a write-to-temp-then-rename), and crashing during the single direct write
of `"newmeta"` over `"old"` can leave `index_meta.json` holding `"ne"`,
which is neither the prior nor the new serialized mapping. -/
theorem c5_counterexample :
    SaveOp.renameTmp ∉ saveMetaOps "newmeta" ∧
    SaveState.mk (some "ne") none ∈
      reachableCrash (SaveState.mk (some "old") none)
        (saveMetaOps "newmeta") ∧
    ¬ (some "ne" : Option String) = some "old" ∧
    ¬ (some "ne" : Option String) = some "newmeta" := by
  decide

/-- C5 amended: the save overwrites `index_meta.json` directly in place
with a single `write_text` and no temporary file or rename, so a crash
during the write can leave a half-written metadata file on disk; the
temp-file-plus-rename discipline the spec prescribes would only ever
expose the old or the new content. -/
theorem c5_direct_write_not_atomic (s t : String)
    (hs : ¬ s = "") (ht : ¬ t = "") :
    SaveOp.renameTmp ∉ saveMetaOps s ∧
    (∃ bad, bad ∈ reachableCrash (SaveState.mk (some t) none)
        (saveMetaOps s) ∧
      ¬ bad.metaContent = some t ∧ ¬ bad.metaContent = some s) ∧
    (∀ bad, bad ∈ reachableCrash (SaveState.mk (some t) none)
        (atomicSaveOps s) →
      bad.metaContent = some t ∨ bad.metaContent = some s) := by
  refine ⟨by simp [saveMetaOps], ?_, ?_⟩
  · refine ⟨SaveState.mk (some "") none, ?_, ?_, ?_⟩
    · have hmem : (SaveState.mk (some "") none) ∈
          crashStates (SaveState.mk (some t) none) (SaveOp.directWrite s) := by
        simp only [crashStates, List.mem_map]
        exact ⟨0, by simp [List.mem_range], rfl⟩
      have hmem2 : (SaveState.mk (some "") none) ∈
          (SaveState.mk (some t) none) ::
            (crashStates (SaveState.mk (some t) none) (SaveOp.directWrite s)
              ++ [SaveState.mk (some s) none]) :=
        List.mem_cons_of_mem _ (List.mem_append_left _ hmem)
      exact hmem2
    · intro hc
      have ht2 : t = "" := by simpa using hc.symm
      exact ht ht2
    · intro hc
      have hs2 : s = "" := by simpa using hc.symm
      exact hs hs2
  · intro bad hbad
    have hb1 : bad ∈ (SaveState.mk (some t) none) ::
        (crashStates (SaveState.mk (some t) none) (SaveOp.tempWrite s) ++
          ((SaveState.mk (some t) (some s)) ::
            ([SaveState.mk (some t) (some s), SaveState.mk (some s) none] ++
              [SaveState.mk (some s) none]))) := hbad
    rcases List.mem_cons.mp hb1 with h | h
    · exact Or.inl (by rw [h])
    rcases List.mem_append.mp h with h | h
    · simp only [crashStates, List.mem_map] at h
      obtain ⟨i, hi, hEq⟩ := h
      exact Or.inl (by rw [← hEq])
    rcases List.mem_cons.mp h with h | h
    · exact Or.inl (by rw [h])
    rcases List.mem_append.mp h with h | h
    · rcases List.mem_cons.mp h with h | h
      · exact Or.inl (by rw [h])
      rcases List.mem_cons.mp h with h | h
      · exact Or.inr (by rw [h])
      · simp at h
    · rcases List.mem_cons.mp h with h | h
      · exact Or.inr (by rw [h])
      · simp at h

/-- Witness for the amended C5 at the concrete contents used in the
counterexample. -/
theorem c5_witness :
    SaveOp.renameTmp ∉ saveMetaOps "newmeta" ∧
    (∃ bad, bad ∈ reachableCrash (SaveState.mk (some "old") none)
        (saveMetaOps "newmeta") ∧
      ¬ bad.metaContent = some "old" ∧ ¬ bad.metaContent = some "newmeta") ∧
    (∀ bad, bad ∈ reachableCrash (SaveState.mk (some "old") none)
        (atomicSaveOps "newmeta") →
      bad.metaContent = some "old" ∨ bad.metaContent = some "newmeta") :=
  c5_direct_write_not_atomic "newmeta" "old" (by decide) (by decide)
